import Mathlib

/-!
Verification of the Jira export normalization pipeline (`main_jira.py`).

DataFrames are modelled column-major (a pandas `DataFrame` is a mapping from
column labels to equally long columns), with cells that are either missing
(`NaN`), a string, or a number.  Total-hours values are integral but pass
through pandas' machine arithmetic — numpy `int64`/`uint64` with silent
wraparound and `float64` with 53-bit rounding — so numbers are modelled with
`Int` and the wrapping/rounding is modelled explicitly (float64 values in
this pipeline are always integer-valued, so a rounded `Int` represents them
exactly; overflow to infinity, beyond `2^1024`, is not modelled and no claim
is made about such cells).

The two regular expressions of the script are embedded as explicit
backtracking-free matchers; comments at each definition justify why Python's
backtracking regex engine is deterministic on these particular patterns, so
that the simpler matcher computes the same result.
-/

set_option autoImplicit false

namespace MainJira

/-- A single cell of a dataframe: missing (`NaN`), a string, or a number
(an integer-valued `int64`/`uint64`/`float64` entry). -/
inductive Cell where
  | na : Cell
  | str (s : String) : Cell
  | num (n : Int) : Cell
deriving DecidableEq, Repr

/-- Whether a cell holds a string.  A pandas column has dtype `object` exactly
when it holds at least one string element (purely numeric or all-`NaN` columns
read from a spreadsheet are `float64`/`int64`). -/
def Cell.isStr : Cell → Bool
  | .str _ => true
  | _ => false

/-- Column-major dataframe: column labels, the row count, and one list of
cells per column (in `DF.WF` frames, each of length `nRows`). -/
structure DF where
  cols : List String
  nRows : Nat
  data : List (List Cell)
deriving DecidableEq, Repr

/-- Well-formedness: one data column per label, all of length `nRows`. -/
def DF.WF (df : DF) : Prop :=
  df.data.length = df.cols.length ∧ ∀ c ∈ df.data, c.length = df.nRows

/-- `COLUMNS_TEMPLATE` of `main_jira.py`. -/
def COLUMNS_TEMPLATE : List String :=
  ["Date/Period", "Lead Time", "Cycle Time", "Blocked Time", "Time to Market",
   "Analysis Time"]

/-- Python `str.lower()` for one character.  The script only ever lowercases
ASCII column names, on which Python's Unicode lowercasing agrees with ASCII
lowercasing. -/
def lowerChar (c : Char) : Char :=
  if 'A' ≤ c ∧ c ≤ 'Z' then Char.ofNat (c.toNat + 32) else c

/-- Python `str.lower()`. -/
def lowerStr (s : String) : String := ⟨s.data.map lowerChar⟩

/-- `COLUMNS_TEMPLATE_LOWER = [x.lower() for x in COLUMNS_TEMPLATE]`. -/
def COLUMNS_TEMPLATE_LOWER : List String := COLUMNS_TEMPLATE.map lowerStr

/-- Index of the first entry satisfying `p` (pandas label lookup picks the
first matching column). -/
def firstIdx {α : Type*} (p : α → Bool) : List α → Option Nat
  | [] => none
  | a :: l => if p a then some 0 else (firstIdx p l).map (· + 1)

/-- Label lookup `df[name]` for the column axis. -/
def DF.colIdx (df : DF) (name : String) : Option Nat :=
  firstIdx (fun c => c == name) df.cols

/-- The cells of column `name`, or `none` when the label is absent
(`KeyError`). -/
def DF.getCol (df : DF) (name : String) : Option (List Cell) :=
  (df.colIdx name).map (fun i => df.data.getD i [])

/-- Keep exactly the entries whose mask bit is `true`
(`df.loc[:, mask]` on the column axis, and `df.drop(label, axis=1)`). -/
def maskList {α : Type*} (bs : List Bool) (xs : List α) : List α :=
  ((bs.zip xs).filter (·.1)).map (·.2)

/-! ### Duration parsing (`convert_time_cols`)

The pattern is `(?:(?P<Days>\d+)d\s*)?(?:(?P<Hours>\d+)h\s*)?(?:(?P<Minutes>\d+)m\s*)?`.
Every part is optional, so `re.search` succeeds (possibly with an empty match)
at position 0 and never advances: searching equals matching at the start.
-/

/-- Maximal digit prefix, and the rest (the greedy `\d+`). -/
def takeDigits : List Char → List Char × List Char
  | [] => ([], [])
  | c :: cs =>
    if c.isDigit then
      let (ds, r) := takeDigits cs
      (c :: ds, r)
    else ([], c :: cs)

/-- Value of a digit string, as `pd.to_numeric` on a matched group. -/
def digitsToNat (ds : List Char) : Nat :=
  ds.foldl (fun a c => a * 10 + (c.toNat - 48)) 0

/-- Greedy `\s*`.  Python's `\s` also covers `\f`, `\v` and Unicode spaces;
the pipeline's data only ever contains the four common whitespace characters,
which is what `Char.isWhitespace` checks. -/
def dropSpaces : List Char → List Char
  | [] => []
  | c :: cs => if c.isWhitespace then dropSpaces cs else c :: cs

/-- One optional group `(?:(\d+)X\s*)?` of the duration pattern, matched at
the current position.  The greedy `\d+` can only succeed with the maximal
digit run (a shorter run leaves a digit where the unit letter `X` is
required), so the group matches exactly when a nonempty digit run is followed
by the unit letter; backtracking never revisits this choice because the
remaining groups are all optional and hence never fail. -/
def matchUnit (u : Char) (s : List Char) : Option (Nat × List Char) :=
  let (ds, r) := takeDigits s
  if ds.isEmpty then none
  else
    match r with
    | c :: r2 => if c = u then some (digitsToNat ds, dropSpaces r2) else none
    | [] => none

/-- `df[col].str.extract(regex_pattern)` for one string cell: the three
optional groups `Days`, `Hours`, `Minutes`, matched in this order at
position 0. -/
def extractDHM (s : List Char) : Option Nat × Option Nat × Option Nat :=
  let (d, s1) :=
    match matchUnit 'd' s with
    | some (n, r) => (some n, r)
    | none => (none, s)
  let (h, s2) :=
    match matchUnit 'h' s1 with
    | some (n, r) => (some n, r)
    | none => (none, s1)
  let (m, _) :=
    match matchUnit 'm' s2 with
    | some (n, r) => (some n, r)
    | none => (none, s2)
  (d, h, m)

/-- `process_nans`: a row of groups with at least one numeric value has its
missing values filled with 0; a fully missing row is returned unchanged. -/
def process_nans (r : Option Nat × Option Nat × Option Nat) :
    Option Nat × Option Nat × Option Nat :=
  if r.1.isSome || r.2.1.isSome || r.2.2.isSome then
    (some (r.1.getD 0), some (r.2.1.getD 0), some (r.2.2.getD 0))
  else r

/-! #### Machine arithmetic

`pd.to_numeric` turns each extracted group column into numpy `int64` (all
values fit), `uint64` (all values fit, some exceed `int64`), or `float64`
(the column contains `NaN`, or a value exceeds `uint64`).  The `axis=1`
`apply` of `process_nans` then re-infers the frame's dtypes from its rows,
which promotes the three group columns to their numpy common type: `int64`
only if all three are `int64`, `uint64` only if all three are `uint64`, and
`float64` otherwise (numpy promotes `int64` with `uint64` to `float64`).
`int64`/`uint64` arithmetic wraps silently; `float64` rounds every operation
to the nearest 53-bit value (ties to even).
-/

def I64MAX : Nat := 9223372036854775807

def U64MAX : Nat := 18446744073709551615

/-- numpy dtype of a numeric column. -/
inductive NKind where
  | i64 : NKind
  | u64 : NKind
  | f64 : NKind
deriving DecidableEq, Repr

/-- Dtype assigned by `pd.to_numeric` to one extracted group column. -/
def colKind (col : List (Option Nat)) : NKind :=
  if col.any (·.isNone) then .f64
  else if col.all (fun v => decide (v.getD 0 ≤ I64MAX)) then .i64
  else if col.all (fun v => decide (v.getD 0 ≤ U64MAX)) then .u64
  else .f64

/-- numpy common type of two group columns (as found by the row-wise
`apply`): like kinds stay, `int64` with `uint64` (or anything with
`float64`) promotes to `float64`. -/
def promote2 : NKind → NKind → NKind
  | .i64, .i64 => .i64
  | .u64, .u64 => .u64
  | _, _ => .f64

/-- `int64` wraparound (the numerals are `2 ^ 63` and `2 ^ 64`). -/
def wrap64 (n : Int) : Int :=
  (n + 9223372036854775808) % 18446744073709551616 - 9223372036854775808

/-- `uint64` wraparound (the numeral is `2 ^ 64`). -/
def wrapU64 (n : Nat) : Nat := n % 18446744073709551616

/-- Fuel-based binary logarithm (structural recursion, so it evaluates in
the kernel, unlike the well-founded `Nat.log2`). -/
def log2Aux : Nat → Nat → Nat
  | 0, _ => 0
  | fuel + 1, n => if 2 ≤ n then log2Aux fuel (n / 2) + 1 else 0

/-- `⌊log2 n⌋` (and 0 for `n = 0`). -/
def log2N (n : Nat) : Nat := log2Aux n n

/-- Round a magnitude to the nearest `float64`-representable integer (53-bit
significand, ties to even; the numeral is `2 ^ 53`).  Integer-valued floats
at or beyond `2^1024` (infinities) are not modelled, and no claim is made
about such cells. -/
def roundDoubleNat (m : Nat) : Nat :=
  if m < 9007199254740992 then m
  else
    let e := log2N m - 52
    let p := 2 ^ e
    let q := m / p
    let r := m % p
    if 2 * r > p then (q + 1) * p
    else if 2 * r < p then q * p
    else if q % 2 = 0 then q * p else (q + 1) * p

/-- Conversion of an integer to `float64` (round to nearest, ties to
even). -/
def roundDouble (n : Int) : Int :=
  if 0 ≤ n then (roundDoubleNat n.toNat : Int)
  else -(roundDoubleNat (-n).toNat : Int)

/-- `float64` addition of two integer-valued doubles: the exact sum, rounded
to the nearest double. -/
def addDouble (a b : Int) : Int := roundDouble (a + b)

/-- Round-half-even of the rational `a / b` (for `b > 0`): the rounding IEEE
754 operations use. -/
def rhe (a b : Nat) : Nat :=
  if 2 * (a % b) > b then a / b + 1
  else if 2 * (a % b) < b then a / b
  else if (a / b) % 2 = 0 then a / b else a / b + 1

/-- Floor of `log2 (a / b)` for positive naturals, via integer
comparisons. -/
def binExp (a b : Nat) : Int :=
  let k : Int := (log2N a : Int) - (log2N b : Int)
  if b * 2 ^ k.toNat ≤ a * 2 ^ (-k).toNat then k else k - 1

/-- `np.ceil (m / 60)` in `float64`: true division produces the correctly
rounded double of the rational `m / 60` (significand `rhe (m * 2 ^ j) 60` at
the binade found by `binExp`), and `ceil` of a double is exact. -/
def ceilD60 (m : Nat) : Nat :=
  if m = 0 then 0
  else
    let e := binExp m 60
    let j : Int := 52 - e
    if 0 ≤ j then
      (rhe (m * 2 ^ j.toNat) 60 + 2 ^ j.toNat - 1) / 2 ^ j.toNat
    else
      rhe m (60 * 2 ^ (-j).toNat) * 2 ^ (-j).toNat

/-- `(df_dhm["Days"] * 24) + df_dhm["Hours"] + np.ceil(df_dhm["Minutes"] / 60)`
on one (already 0-filled) row, at the frame's common dtype `P`.  The
`Minutes / 60` term is always `float64`, so the final addition converts the
integer part to a double and rounds the sum; on the `f64` path the stored
group values are themselves already doubles. -/
def totalRow (P : NKind) (d h m : Nat) : Int :=
  match P with
  | .i64 =>
    addDouble (roundDouble (wrap64 (wrap64 ((d : Int) * 24) + (h : Int))))
      (ceilD60 m)
  | .u64 =>
    addDouble (roundDouble (wrapU64 (wrapU64 (d * 24) + h) : Int))
      (ceilD60 m)
  | .f64 =>
    addDouble (addDouble (roundDouble ((roundDoubleNat d : Int) * 24))
        (roundDoubleNat h : Int))
      (ceilD60 (roundDoubleNat m))

/-- `df[col].str.extract(regex_pattern)` for one cell: a non-string element
yields `NaN` in every group. -/
def extractRow : Cell → Option Nat × Option Nat × Option Nat
  | .str s => extractDHM s.data
  | _ => (none, none, none)

/-- One row's final cell: a fully missing row stays `NaN` (the arithmetic
propagates it); a filled row becomes the total at the common dtype `P`. -/
def convertRow (P : NKind) (r : Option Nat × Option Nat × Option Nat) : Cell :=
  match process_nans r with
  | (some d0, some h0, some m0) => Cell.num (totalRow P d0 h0 m0)
  | _ => Cell.na

/-- Body of the `convert_time_cols` loop for one column: a column whose
dtype is not `object` is skipped (`continue`); otherwise the groups are
extracted, `pd.to_numeric` fixes each group column's dtype, `process_nans`
fills rows and promotes the frame to a common dtype, and the total-hours
arithmetic runs at that dtype.  A nonempty column read from a spreadsheet
has `object` dtype exactly when it holds at least one string; 0-row columns
(whose dtype is metadata a value-level model cannot see) are not relied on
by any theorem. -/
def convertCol (cells : List Cell) : List Cell :=
  if cells.any Cell.isStr then
    let rows := cells.map extractRow
    let P := promote2 (colKind (rows.map (·.1)))
      (promote2 (colKind (rows.map (·.2.1))) (colKind (rows.map (·.2.2))))
    rows.map (convertRow P)
  else cells

/-- Whether the needle is a prefix of the haystack. -/
def leadsList : List Char → List Char → Bool
  | [], _ => true
  | _ :: _, [] => false
  | a :: n, b :: h => a == b && leadsList n h

/-- Whether the needle occurs contiguously in the haystack (Python's
substring test `x in s`). -/
def hasSubstr (needle : List Char) : List Char → Bool
  | [] => needle.isEmpty
  | b :: h => leadsList needle (b :: h) || hasSubstr needle h

/-- Models Python's substring test `"time" in col.lower()`. -/
def containsTime (s : String) : Bool := hasSubstr "time".data (lowerStr s).data

/-- `time_columns = [col for col in COLUMNS_TEMPLATE if "time" in col.lower()]`. -/
def time_columns : List String := COLUMNS_TEMPLATE.filter containsTime

/-- `convert_time_cols`: fold over the requested column names; accessing a
missing column raises `KeyError`, modelled as `none`. -/
def convert_time_cols (df : DF) : List String → Option DF
  | [] => some df
  | n :: ns =>
    match df.colIdx n with
    | none => none
    | some i =>
      convert_time_cols
        ⟨df.cols, df.nRows, df.data.set i (convertCol (df.data.getD i []))⟩ ns

/-! ### Date splitting (`split_date_col`)

Pattern: `(\d{1,2}/\w{3}/\d{2})\s+-\s+(\d{1,2}/\w{3}/\d{2})\s+\([Ww][Ee]{2}[Kk]\s+#(\d+)\)`.
-/

/-- `\w` restricted to ASCII; Python's `\w` also covers Unicode word
characters, but the pattern only ever matches month abbreviations here. -/
def isWordChar (c : Char) : Bool := c.isAlphanum || c == '_'

/-- `\d{1,2}` followed by the literal `/`, at the current position.  The
greedy quantifier tries two digits first; a shorter run can only help when
the following character is `/` rather than a digit, and digits and `/` are
disjoint, so at most one alternative survives and the matcher is
deterministic.  Returns the matched digits and the rest after the slash. -/
def matchD12 : List Char → Option (List Char × List Char)
  | a :: rest =>
    if a.isDigit then
      match rest with
      | b :: rest2 =>
        if b.isDigit then
          match rest2 with
          | c :: rest3 => if c = '/' then some ([a, b], rest3) else none
          | [] => none
        else if b = '/' then some ([a], rest2) else none
      | [] => none
    else none
  | [] => none

/-- Exactly three word characters, `\w{3}` (no quantifier choice). -/
def matchW3 : List Char → Option (List Char × List Char)
  | a :: b :: c :: r =>
    if isWordChar a && isWordChar b && isWordChar c then some ([a, b, c], r)
    else none
  | _ => none

/-- Exactly two digits, `\d{2}` (no quantifier choice). -/
def matchD2 : List Char → Option (List Char × List Char)
  | a :: b :: r => if a.isDigit && b.isDigit then some ([a, b], r) else none
  | _ => none

/-- One date group `\d{1,2}/\w{3}/\d{2}`; returns the matched substring and
the rest. -/
def datePart (s : List Char) : Option (List Char × List Char) := do
  let (d1, r1) ← matchD12 s
  let (w, r2) ← matchW3 r1
  match r2 with
  | c :: r3 =>
    if c = '/' then
      let (d2, r4) ← matchD2 r3
      some (d1 ++ '/' :: w ++ '/' :: d2, r4)
    else none
  | [] => none

/-- Greedy `\s+`.  In this pattern `\s+` is always followed by a
non-whitespace literal, so maximal munch is exact. -/
def spaces1 : List Char → Option (List Char)
  | [] => none
  | c :: r => if c.isWhitespace then some (dropSpaces r) else none

/-- A literal character. -/
def lit (c : Char) : List Char → Option (List Char)
  | [] => none
  | a :: r => if a = c then some r else none

/-- A character class such as `[Ww]`. -/
def oneOf (cs : List Char) : List Char → Option (List Char)
  | [] => none
  | a :: r => if cs.contains a then some r else none

/-- The date-range half `(\d{1,2}/\w{3}/\d{2})\s+-\s+(\d{1,2}/\w{3}/\d{2})`
of the period pattern, at the current position. -/
def matchDates (s : List Char) : Option (String × String × List Char) :=
  match datePart s with
  | none => none
  | some (d1, r1) =>
    match spaces1 r1 with
    | none => none
    | some r2 =>
      match lit '-' r2 with
      | none => none
      | some r3 =>
        match spaces1 r3 with
        | none => none
        | some r4 =>
          match datePart r4 with
          | none => none
          | some (d2, r5) => some (⟨d1⟩, ⟨d2⟩, r5)

/-- The week half `\s+\([Ww][Ee]{2}[Kk]\s+#(\d+)\)` of the period pattern.
The `(\d+)` group is greedy and followed by `)`; digits and `)` are
disjoint, so only the maximal digit run can succeed. -/
def matchWeekTail (r5 : List Char) : Option String :=
  match spaces1 r5 with
  | none => none
  | some r6 =>
    match lit '(' r6 with
    | none => none
    | some r7 =>
      match oneOf ['W', 'w'] r7 with
      | none => none
      | some r8 =>
        match oneOf ['E', 'e'] r8 with
        | none => none
        | some r9 =>
          match oneOf ['E', 'e'] r9 with
          | none => none
          | some r10 =>
            match oneOf ['K', 'k'] r10 with
            | none => none
            | some r11 =>
              match spaces1 r11 with
              | none => none
              | some r12 =>
                match lit '#' r12 with
                | none => none
                | some r13 =>
                  match takeDigits r13 with
                  | (wk, r14) =>
                    if wk.isEmpty then none
                    else
                      match lit ')' r14 with
                      | none => none
                      | some _ => some ⟨wk⟩

/-- The full period pattern attempted at the current position. -/
def matchPeriodAt (s : List Char) : Option (String × String × String) :=
  match matchDates s with
  | none => none
  | some (d1, d2, r5) =>
    match matchWeekTail r5 with
    | none => none
    | some wk => some (d1, d2, wk)

/-- `re.search` for the period pattern: try every position from the left,
first match wins. -/
def extractDate : List Char → Option (String × String × String)
  | [] => none
  | c :: r =>
    match matchPeriodAt (c :: r) with
    | some t => some t
    | none => extractDate r

/-- Per-cell result of `df["Date/Period"].str.extract(regex_pattern)`:
non-string cells and non-matching strings yield `NaN` in all three groups. -/
def splitCell : Cell → Cell × Cell × Cell
  | .str s =>
    match extractDate s.data with
    | some (a, b, w) => (.str a, .str b, .str w)
    | none => (.na, .na, .na)
  | _ => (.na, .na, .na)

/-- `split_date_col`: extract the three derived columns from `Date/Period`,
drop every `Date/Period` column, and prepend the derived columns
(`pd.concat([df_, df], axis=1)`).  Two failure modes are modelled as `none`:
accessing a missing `Date/Period` raises `KeyError`, and the `.str` accessor
raises `AttributeError` on a column that holds no string — in particular on
the `float64` all-`NaN` column that `reindex` produces when the source file
lacked `Date/Period` (a nonempty spreadsheet column is string-bearing
exactly when its dtype admits `.str`; 0-row columns are not relied on by any
theorem). -/
def split_date_col (df : DF) : Option DF :=
  match df.colIdx "Date/Period" with
  | none => none
  | some i =>
    let dateCol := df.data.getD i []
    if dateCol.any Cell.isStr then
      let ex := dateCol.map splitCell
      let keep := df.cols.map (fun c => c != "Date/Period")
      some ⟨"Period Start" :: "Period End" :: "Week Number"
              :: maskList keep df.cols,
            df.nRows,
            ex.map (·.1) :: ex.map (·.2.1) :: ex.map (·.2.2)
              :: maskList keep df.data⟩
    else none

/-! ### Column reconciliation (`preprocess_columns`) -/

/-- `df.columns.str.replace("⊞", "")`: every `⊞` glyph is removed from a
column name. -/
def stripSquare (s : String) : String := ⟨s.data.filter (fun c => c != '⊞')⟩

/-- The mask `df.columns.str.lower().isin(COLUMNS_TEMPLATE_LOWER)` for one
(already glyph-stripped) name. -/
def keepCol (c : String) : Bool := COLUMNS_TEMPLATE_LOWER.contains (lowerStr c)

/-- The `col_rename_mapper` applied to one surviving column: a name already
in the template is kept; otherwise the first template entry with the same
lowercasing wins; otherwise the name is unchanged. -/
def canonName (c : String) : String :=
  if COLUMNS_TEMPLATE.contains c then c
  else
    match COLUMNS_TEMPLATE.find? (fun t => lowerStr t == lowerStr c) with
    | some t => t
    | none => c

/-- The column labels `df.reindex` sees: glyph-stripped, masked to the
template (case-insensitively), and canonically renamed. -/
def canonKeptCols (df : DF) : List String :=
  (maskList ((df.cols.map stripSquare).map keepCol) (df.cols.map stripSquare)).map
    canonName

/-- Executable uniqueness check, as pandas' `index.is_unique` guard inside
`reindex`. -/
def nodupBool : List String → Bool
  | [] => true
  | c :: l => !(l.contains c) && nodupBool l

/-- `preprocess_columns`.  Missing-column diagnostics are returned as
(template column, file name) pairs, modelling the `logging.info` lines.
`df.reindex(columns=COLUMNS_TEMPLATE)` on an axis that contains duplicate
labels raises `ValueError`, modelled as `Except.error`. -/
def preprocess_columns (df : DF) (fileName : String) :
    Except String (DF × List (String × String)) :=
  let cols1 := df.cols.map stripSquare
  let keep := cols1.map keepCol
  let cols2 := maskList keep cols1
  let data2 := maskList keep df.data
  let logs := COLUMNS_TEMPLATE.filterMap (fun c =>
    if (cols2.map lowerStr).contains (lowerStr c) then none
    else some (c, fileName))
  let cols3 := cols2.map canonName
  if nodupBool cols3 then
    .ok (⟨COLUMNS_TEMPLATE, df.nRows,
          COLUMNS_TEMPLATE.map (fun t =>
            match firstIdx (fun c => c == t) cols3 with
            | some i => data2.getD i (List.replicate df.nRows .na)
            | none => List.replicate df.nRows .na)⟩, logs)
  else .error "cannot reindex on an axis with duplicate labels"

/-! ### Orchestration (`main`) -/

/-- `df.insert(loc=0, column="Department Name", value=filepath.stem)`: the
scalar is broadcast to every row.  (`insert` would raise if the label already
existed; in the pipeline it never does, as proved below.) -/
def insertDept (df : DF) (name : String) : DF :=
  ⟨"Department Name" :: df.cols, df.nRows,
   List.replicate df.nRows (Cell.str name) :: df.data⟩

/-- The per-file body of the `main` loop: reconcile columns, convert the time
columns, split the date column, tag with the department name (the file
stem).  Any uncaught failure propagates. -/
def transformFile (stem : String) (df : DF) :
    Except String (DF × List (String × String)) :=
  match preprocess_columns df (stem ++ ".xlsx") with
  | .error e => .error e
  | .ok (df1, logs) =>
    match convert_time_cols df1 time_columns with
    | none => .error "KeyError"
    | some df2 =>
      match split_date_col df2 with
      | none => .error "AttributeError"
      | some df3 => .ok (insertDept df3 stem, logs)

/-- The `main` loop over the discovered files, in discovery order; the first
uncaught failure aborts the run. -/
def runFiles : List (String × DF) → Except String (List DF × List (String × String))
  | [] => .ok ([], [])
  | (n, df) :: rest =>
    match transformFile n df with
    | .error e => .error e
    | .ok (d, logs) =>
      match runFiles rest with
      | .error e => .error e
      | .ok (ds, moreLogs) => .ok (d :: ds, logs ++ moreLogs)

/-- `pd.concat(transformed_dfs, ignore_index=True)`: an empty list raises
`ValueError`; otherwise columns are aligned by label in order of first
appearance (`sort=False`), frames lacking a column contribute `NaN` rows, and
row blocks are stacked in list order. -/
def concatDFs : List DF → Except String DF
  | [] => .error "No objects to concatenate"
  | d :: ds =>
    let dfs := d :: ds
    let allCols := dfs.foldl
      (fun acc df => acc ++ df.cols.filter (fun c => !(acc.contains c))) []
    .ok ⟨allCols,
         (dfs.map (·.nRows)).sum,
         allCols.map (fun c =>
           (dfs.map (fun df =>
             match df.getCol c with
             | some col => col
             | none => List.replicate df.nRows .na)).flatten)⟩

/-- Result of one run of `main`: the final table (or the propagated failure),
the missing-column diagnostics, and whether the timestamped log file exists
afterwards. -/
structure RunResult where
  finalDF : Except String DF
  diagnostics : List (String × String)
  logFileCreated : Bool
deriving Repr

/-- `main` of `main_jira.py`, on the already-loaded department tables (stem,
raw table) in discovery order.  `logging.basicConfig(filename=OUTPUT_LOGS_PATH, ...)`
constructs a `FileHandler` with the default `delay=False`, which opens — and
hence creates — the log file before any spreadsheet is processed, so the log
file exists for every run whether or not a diagnostic is ever emitted.  On an
aborted run the diagnostics already written remain in the file; the
`diagnostics` field reports the lines of a completed loop. -/
def main (inputs : List (String × DF)) : RunResult :=
  let logFileCreated := true
  match runFiles inputs with
  | .error e => ⟨.error e, [], logFileCreated⟩
  | .ok (dfs, logs) => ⟨concatDFs dfs, logs, logFileCreated⟩

/-- Header of the final output CSV. -/
def FINAL_COLUMNS : List String :=
  ["Department Name", "Period Start", "Period End", "Week Number",
   "Lead Time", "Cycle Time", "Blocked Time", "Time to Market",
   "Analysis Time"]

/-! ### Decimal rendering (for quantified duration claims) -/

/-- The decimal digit characters. -/
def digitChar : Nat → Char
  | 0 => '0'
  | 1 => '1'
  | 2 => '2'
  | 3 => '3'
  | 4 => '4'
  | 5 => '5'
  | 6 => '6'
  | 7 => '7'
  | 8 => '8'
  | _ => '9'

/-- Decimal rendering of a natural number, as Python `str` / f-string
formatting produces it (no leading zeros, most significant digit first). -/
def natToChars (n : Nat) : List Char :=
  if _h : n < 10 then [digitChar n]
  else natToChars (n / 10) ++ [digitChar (n % 10)]
termination_by n
decreasing_by exact Nat.div_lt_self (by omega) (by omega)

/-- The f-string `f"{d}d {h}h {m}m"`. -/
def durStr (d h m : Nat) : String :=
  ⟨natToChars d ++ 'd' :: ' ' :: (natToChars h ++ 'h' :: ' ' :: (natToChars m ++ ['m']))⟩

/-! ### Lemmas about decimal rendering and the duration matcher -/

theorem digitChar_isDigit (n : Nat) : (digitChar n).isDigit = true := by
  rcases n with _|_|_|_|_|_|_|_|_|n <;> rfl

theorem digitChar_toNat (n : Nat) (h : n < 10) : (digitChar n).toNat = 48 + n := by
  rcases n with _|_|_|_|_|_|_|_|_|_|n
  any_goals rfl
  omega

theorem digitChar_not_ws (n : Nat) : (digitChar n).isWhitespace = false := by
  rcases n with _|_|_|_|_|_|_|_|_|n <;> rfl

theorem natToChars_digits (n : Nat) : ∀ c ∈ natToChars n, c.isDigit = true := by
  induction n using Nat.strong_induction_on with
  | _ n ih =>
    intro c hc
    rw [natToChars] at hc
    split at hc
    · rw [List.mem_singleton] at hc
      exact hc ▸ digitChar_isDigit n
    · rename_i hn
      rw [List.mem_append] at hc
      rcases hc with hc | hc
      · exact ih (n / 10) (Nat.div_lt_self (by omega) (by omega)) c hc
      · rw [List.mem_singleton] at hc
        exact hc ▸ digitChar_isDigit (n % 10)

theorem natToChars_head (n : Nat) :
    ∃ k t, natToChars n = digitChar k :: t := by
  induction n using Nat.strong_induction_on with
  | _ n ih =>
    rw [natToChars]
    split
    · exact ⟨n, [], rfl⟩
    · rename_i hn
      obtain ⟨k, t, ht⟩ := ih (n / 10) (Nat.div_lt_self (by omega) (by omega))
      exact ⟨k, t ++ [digitChar (n % 10)], by rw [ht]; rfl⟩

theorem natToChars_ne_nil (n : Nat) : natToChars n ≠ [] := by
  obtain ⟨k, t, ht⟩ := natToChars_head n
  simp [ht]

/-- Head condition under which `takeDigits` stops. -/
def headNotDigit : List Char → Prop
  | [] => True
  | c :: _ => c.isDigit = false

theorem takeDigits_append (ds rest : List Char)
    (h1 : ∀ c ∈ ds, c.isDigit = true) (h2 : headNotDigit rest) :
    takeDigits (ds ++ rest) = (ds, rest) := by
  induction ds with
  | nil =>
    cases rest with
    | nil => rfl
    | cons c t => simpa [takeDigits] using h2
  | cons c ds ih =>
    have hc : c.isDigit = true := h1 c (List.mem_cons_self c ds)
    have := ih (fun x hx => h1 x (List.mem_cons_of_mem c hx))
    simp [takeDigits, hc, this]

theorem digitsToNat_natToChars (n : Nat) : digitsToNat (natToChars n) = n := by
  induction n using Nat.strong_induction_on with
  | _ n ih =>
    rw [natToChars]
    split
    · rename_i h
      simp [digitsToNat, digitChar_toNat n h]
    · rename_i hn
      have hlt : n / 10 < n := Nat.div_lt_self (by omega) (by omega)
      have hmod : n % 10 < 10 := Nat.mod_lt n (by omega)
      simp [digitsToNat, List.foldl_append] at *
      rw [ih (n / 10) hlt, digitChar_toNat (n % 10) hmod]
      omega

theorem dropSpaces_not_ws (c : Char) (t : List Char)
    (h : c.isWhitespace = false) : dropSpaces (c :: t) = c :: t := by
  simp [dropSpaces, h]

theorem matchUnit_render (u : Char) (hu : u.isDigit = false) (n : Nat)
    (rest : List Char) :
    matchUnit u (natToChars n ++ u :: rest) = some (n, dropSpaces rest) := by
  have htd : takeDigits (natToChars n ++ u :: rest) = (natToChars n, u :: rest) :=
    takeDigits_append _ _ (natToChars_digits n) hu
  have hne : (natToChars n).isEmpty = false := by
    obtain ⟨k, t, ht⟩ := natToChars_head n
    simp [ht]
  simp [matchUnit, htd, hne, digitsToNat_natToChars]

theorem extractDHM_render (d h m : Nat) :
    extractDHM (durStr d h m).data = (some d, some h, some m) := by
  have hd : ('d' : Char).isDigit = false := rfl
  have hh : ('h' : Char).isDigit = false := rfl
  have hm : ('m' : Char).isDigit = false := rfl
  obtain ⟨kh, th, hth⟩ := natToChars_head h
  obtain ⟨km, tm, htm⟩ := natToChars_head m
  have e1 : matchUnit 'd' (durStr d h m).data
      = some (d, natToChars h ++ 'h' :: ' ' :: (natToChars m ++ ['m'])) := by
    rw [show (durStr d h m).data
        = natToChars d ++ 'd' :: (' ' :: (natToChars h ++ 'h' :: ' ' :: (natToChars m ++ ['m'])))
        from rfl]
    rw [matchUnit_render 'd' hd]
    rw [show dropSpaces (' ' :: (natToChars h ++ 'h' :: ' ' :: (natToChars m ++ ['m'])))
        = dropSpaces (natToChars h ++ 'h' :: ' ' :: (natToChars m ++ ['m'])) from rfl]
    rw [hth, List.cons_append]
    rw [dropSpaces_not_ws _ _ (digitChar_not_ws kh), ← List.cons_append, ← hth]
  have e2 : matchUnit 'h' (natToChars h ++ 'h' :: ' ' :: (natToChars m ++ ['m']))
      = some (h, natToChars m ++ ['m']) := by
    rw [matchUnit_render 'h' hh]
    rw [show dropSpaces (' ' :: (natToChars m ++ ['m']))
        = dropSpaces (natToChars m ++ ['m']) from rfl]
    rw [htm, List.cons_append]
    rw [dropSpaces_not_ws _ _ (digitChar_not_ws km), ← List.cons_append, ← htm]
  have e3 : matchUnit 'm' (natToChars m ++ ['m']) = some (m, []) := by
    have := matchUnit_render 'm' hm m ([] : List Char)
    simpa [dropSpaces] using this
  simp [extractDHM, e1, e2, e3]

/-! ### Exactness lemmas for the machine arithmetic -/

theorem wrap64_id (n : Int) (h0 : 0 ≤ n) (h1 : n < 9223372036854775808) :
    wrap64 n = n := by
  unfold wrap64
  omega

theorem roundDoubleNat_id (m : Nat) (h : m < 9007199254740992) :
    roundDoubleNat m = m := by
  unfold roundDoubleNat
  rw [if_pos h]

theorem roundDouble_id (n : Int) (h0 : 0 ≤ n) (h1 : n < 9007199254740992) :
    roundDouble n = n := by
  unfold roundDouble
  rw [if_pos h0, roundDoubleNat_id _ (by omega)]
  omega

theorem rhe_bounds (a b : Nat) : a / b ≤ rhe a b ∧ rhe a b ≤ a / b + 1 := by
  unfold rhe
  split
  · omega
  · split
    · omega
    · split <;> omega

theorem rhe_exact (a b : Nat) (hb : 0 < b) (h : a % b = 0) : rhe a b = a / b := by
  unfold rhe
  rw [h]
  rw [if_neg (by omega), if_pos (by omega)]

/-- Ceiling of the correctly rounded double of `m / 60` agrees with the
exact ceiling whenever the significand carries at least six fractional bits
of the quotient: an exact quotient rounds exactly, and a non-integer
quotient sits at least `1/60 > 2 ^ (-j)` away from the integers below. -/
theorem ceil_rhe_gen (m p : Nat) (hp : 60 ≤ p) (_hm : 1 ≤ m) :
    (rhe (m * p) 60 + p - 1) / p = (m + 59) / 60 := by
  obtain ⟨hs1, hs2⟩ := rhe_bounds (m * p) 60
  set s := rhe (m * p) 60 with hsdef
  have hk : m = 60 * (m / 60) + m % 60 := (Nat.div_add_mod m 60).symm
  set k := m / 60 with hkdef
  set r := m % 60 with hrdef
  have hr60 : r < 60 := Nat.mod_lt _ (by omega)
  rcases Nat.eq_zero_or_pos r with hr0 | hrpos
  · -- exact quotient: the significand is exact and the ceiling is `k`
    have hm60 : m = 60 * k := by omega
    have hmp : m * p = 60 * (k * p) := by
      rw [hm60]
      ring
    have hmod : (m * p) % 60 = 0 := by
      rw [hmp]
      exact Nat.mul_mod_right 60 (k * p)
    have hsval : s = k * p := by
      rw [hsdef, rhe_exact _ _ (by omega) hmod, hmp,
        Nat.mul_div_cancel_left _ (by omega : 0 < 60)]
    have hleft : (k * p + p - 1) / p = k := by
      have hc : p * k = k * p := Nat.mul_comm p k
      have h1 : k * p + p - 1 = (p - 1) + p * k := by omega
      rw [h1, Nat.add_mul_div_left _ _ (by omega : 0 < p),
        Nat.div_eq_of_lt (by omega : p - 1 < p)]
      omega
    have hright : (m + 59) / 60 = k := by
      have h1 : m + 59 = 59 + 60 * k := by omega
      rw [h1, Nat.add_mul_div_left _ _ (by omega : 0 < 60),
        Nat.div_eq_of_lt (by omega : 59 < 60)]
      omega
    rw [hsval, hleft, hright]
  · -- fractional quotient: the rounded value still ceils to `k + 1`
    have hq : (m * p) / 60 = k * p + (r * p) / 60 := by
      have h1 : m * p = r * p + 60 * (k * p) := by
        rw [hk]
        ring
      rw [h1, Nat.add_mul_div_left _ _ (by omega : 0 < 60)]
      omega
    have hrp1 : 1 ≤ (r * p) / 60 := by
      rw [Nat.one_le_div_iff (by omega : 0 < 60)]
      calc (60 : Nat) ≤ p := hp
      _ ≤ r * p := Nat.le_mul_of_pos_left _ hrpos
    have hrp2 : (r * p) / 60 ≤ p - 1 := by
      have h2 : (r * p) / 60 < p := by
        rw [Nat.div_lt_iff_lt_mul (by omega : 0 < 60)]
        have h3 : r * p ≤ 59 * p := Nat.mul_le_mul_right _ (by omega)
        have h4 : p * 60 = 59 * p + p := by ring
        omega
      omega
    have hleft : (s + p - 1) / p = k + 1 := by
      have hc : p * (k + 1) = k * p + p := by ring
      have h1 : s + p - 1 = (s + p - 1 - (k * p + p)) + p * (k + 1) := by omega
      rw [h1, Nat.add_mul_div_left _ _ (by omega : 0 < p),
        Nat.div_eq_of_lt (by omega : s + p - 1 - (k * p + p) < p)]
      omega
    have hright : (m + 59) / 60 = k + 1 := by
      have h1 : m + 59 = (r - 1) + 60 * (k + 1) := by omega
      rw [h1, Nat.add_mul_div_left _ _ (by omega : 0 < 60),
        Nat.div_eq_of_lt (by omega : r - 1 < 60)]
      omega
    rw [hleft, hright]

theorem log2Aux_le (fuel : Nat) :
    ∀ n k, n ≤ fuel → n < 2 ^ k → log2Aux fuel n ≤ k - 1 := by
  induction fuel with
  | zero =>
    intro n k hn _
    have hn0 : n = 0 := by omega
    subst hn0
    show 0 ≤ k - 1
    omega
  | succ fuel ih =>
    intro n k hn hk
    unfold log2Aux
    split
    · rename_i h2
      have hk2 : 2 ≤ k := by
        by_contra hcon
        have hk01 : k = 0 ∨ k = 1 := by omega
        rcases hk01 with rfl | rfl
        · norm_num at hk
          omega
        · norm_num at hk
          omega
      have hpow : 2 ^ k = 2 ^ (k - 1) * 2 := by
        rw [← pow_succ]
        congr 1
        omega
      have hhalf : n / 2 < 2 ^ (k - 1) := by
        rw [hpow] at hk
        omega
      have hfuel : n / 2 ≤ fuel := by omega
      have hrec := ih (n / 2) (k - 1) hfuel hhalf
      omega
    · omega

theorem log2N_le (m k : Nat) (hk : m < 2 ^ k) : log2N m ≤ k - 1 :=
  log2Aux_le m m k (Nat.le_refl m) hk

theorem binExp_le (a b : Nat) :
    binExp a b ≤ (log2N a : Int) - (log2N b : Int) := by
  simp only [binExp]
  split <;> omega

/-- Below `2 ^ 47` minutes the double division by 60 is fine enough that its
ceiling is the exact `(m + 59) / 60`. -/
theorem ceilD60_eq (m : Nat) (hm : m < 2 ^ 47) : ceilD60 m = (m + 59) / 60 := by
  rcases Nat.eq_zero_or_pos m with h0 | hpos
  · subst h0
    rfl
  have hlog : log2N m ≤ 46 := log2N_le m 47 hm
  have hlog60 : log2N 60 = 5 := by decide
  have he : binExp m 60 ≤ 41 := by
    have h1 := binExp_le m 60
    rw [hlog60] at h1
    omega
  unfold ceilD60
  rw [if_neg (by omega)]
  have hj : (0 : Int) ≤ 52 - binExp m 60 := by omega
  rw [if_pos hj]
  have hjn : 6 ≤ (52 - binExp m 60).toNat := by omega
  have hp : 60 ≤ 2 ^ (52 - binExp m 60).toNat := by
    calc (60 : Nat) ≤ 2 ^ 6 := by norm_num
    _ ≤ 2 ^ (52 - binExp m 60).toNat := Nat.pow_le_pow_right (by omega) hjn
  exact ceil_rhe_gen m _ hp hpos

theorem colKind_single_some (v : Nat) (hv : v ≤ I64MAX) :
    colKind [some v] = NKind.i64 := by
  unfold colKind
  simp [hv]

/-- The whole conversion of a one-cell string column, factored through the
per-row functions (this is definitional: the column pipeline on a singleton
list is the row pipeline). -/
theorem convertCol_single (s : String) :
    convertCol [Cell.str s]
      = [convertRow
          (promote2 (colKind [(extractDHM s.data).1])
            (promote2 (colKind [(extractDHM s.data).2.1])
              (colKind [(extractDHM s.data).2.2])))
          (extractDHM s.data)] := rfl

/-- Counterexample to C1 as stated: for `D = 400000000000000000` the three
groups form single-value `int64` columns, `Days * 24 = 9.6e18` exceeds
`int64`'s maximum and wraps to `-8846744073709551616`, and the cast to
`float64` rounds that to the nearest multiple of `1024` — nowhere near the
claimed exact total. -/
theorem convert_duration_overflow :
    convertCol [Cell.str "400000000000000000d 0h 0m"]
        = [Cell.num (-8846744073709551616)]
      ∧ convertCol [Cell.str "400000000000000000d 0h 0m"]
        ≠ [Cell.num 9600000000000000000] := by
  constructor
  · decide
  · decide

/-- C1 (amended).  For all `D`, `H`, `M` below `2 ^ 47` — safely inside
`int64` range and `float64` precision — converting the cell
`"{D}d {H}h {M}m"` yields the exact `D*24 + H + ceil(M/60)` (in `Nat`,
`ceil (M/60) = (M+59)/60`); in particular `"10d 5h 3m"` yields 246, `"1m"`
yields 1, and `"-"` yields a missing value. -/
theorem convert_duration_formula :
    (∀ d h m : Nat, d < 2 ^ 47 → h < 2 ^ 47 → m < 2 ^ 47 →
      convertCol [Cell.str (durStr d h m)]
        = [Cell.num ((d * 24 + h + (m + 59) / 60 : Nat) : Int)])
    ∧ convertCol [Cell.str "10d 5h 3m"] = [Cell.num 246]
    ∧ convertCol [Cell.str "1m"] = [Cell.num 1]
    ∧ convertCol [Cell.str "-"] = [Cell.na] := by
  refine ⟨fun d h m hd hh hm => ?_, by decide, by decide, by decide⟩
  have h47 : (2 : Nat) ^ 47 = 140737488355328 := by norm_num
  rw [h47] at hd hh hm
  have hdI : (d : Int) < 140737488355328 := by exact_mod_cast hd
  have hhI : (h : Int) < 140737488355328 := by exact_mod_cast hh
  have hceil : ceilD60 m = (m + 59) / 60 := ceilD60_eq m (by omega)
  have hceilb : (m + 59) / 60 ≤ m + 59 := Nat.div_le_self _ _
  have hceilI : (((m + 59) / 60 : Nat) : Int) ≤ (m : Int) + 59 := by
    exact_mod_cast hceilb
  have hmI : (m : Int) < 140737488355328 := by exact_mod_cast hm
  have hmaxI : I64MAX = 9223372036854775807 := rfl
  rw [convertCol_single, extractDHM_render]
  rw [colKind_single_some d (by rw [hmaxI]; omega),
    colKind_single_some h (by rw [hmaxI]; omega),
    colKind_single_some m (by rw [hmaxI]; omega)]
  show [Cell.num (totalRow NKind.i64 d h m)] = _
  unfold totalRow
  have e1 : wrap64 ((d : Int) * 24) = (d : Int) * 24 :=
    wrap64_id _ (by omega) (by omega)
  have e2 : wrap64 ((d : Int) * 24 + (h : Int)) = (d : Int) * 24 + (h : Int) :=
    wrap64_id _ (by omega) (by omega)
  have e3 : roundDouble ((d : Int) * 24 + (h : Int))
      = (d : Int) * 24 + (h : Int) :=
    roundDouble_id _ (by omega) (by omega)
  have e4 : addDouble ((d : Int) * 24 + (h : Int)) (((m + 59) / 60 : Nat) : Int)
      = (d : Int) * 24 + (h : Int) + (((m + 59) / 60 : Nat) : Int) := by
    unfold addDouble
    exact roundDouble_id _ (by omega) (by omega)
  rw [e1, e2, e3, hceil, e4]
  rfl

theorem convert_duration_formula_witness :
    convertCol [Cell.str (durStr 10 5 3)] = [Cell.num 246] :=
  convert_duration_formula.1 10 5 3 (by norm_num) (by norm_num) (by norm_num)

/-- C3.  If none of the three regex groups matched, the cell's result is a
missing value (not zero); if at least one group matched, every unmatched
group is treated as 0 (`process_nans`) before the total-hours arithmetic is
applied at the frame's common dtype. -/
theorem convert_cell_group_defaults :
    (∀ s : String, extractDHM s.data = (none, none, none)
        → convertCol [Cell.str s] = [Cell.na])
    ∧ (∀ (s : String) (d h m : Option Nat), extractDHM s.data = (d, h, m)
        → (d.isSome || h.isSome || m.isSome) = true
        → convertCol [Cell.str s]
            = [Cell.num (totalRow
                (promote2 (colKind [d]) (promote2 (colKind [h]) (colKind [m])))
                (d.getD 0) (h.getD 0) (m.getD 0))]) := by
  constructor
  · intro s hs
    rw [convertCol_single, hs]
    rfl
  · intro s d h m hs hsome
    rw [convertCol_single, hs]
    unfold convertRow process_nans
    simp only [hsome, if_true]

theorem convert_cell_group_defaults_witness :
    convertCol [Cell.str "-"] = [Cell.na]
    ∧ convertCol [Cell.str "5h"] = [Cell.num 5] := by
  constructor
  · exact convert_cell_group_defaults.1 "-" rfl
  · have h := convert_cell_group_defaults.2 "5h" none (some 5) none rfl rfl
    rw [h]
    decide

theorem maskList_map_self {α : Type*} (p : α → Bool) (l : List α) :
    maskList (l.map p) l = l.filter p := by
  induction l with
  | nil => rfl
  | cons a l ih =>
    cases h : p a <;> simp [maskList, List.filter_cons, h] <;>
      simpa [maskList] using ih

/-- C4.  Date splitting maps `"01/Jan/24 - 07/Jan/24 (Week #1)"` to
`Period Start = "01/Jan/24"`, `Period End = "07/Jan/24"`,
`Week Number = "1"`; every cell not matching the pattern (including
non-string cells) yields missing values for all three derived fields; and in
every case the `Date/Period` column is absent from the result. -/
theorem split_date_col_spec :
    splitCell (.str "01/Jan/24 - 07/Jan/24 (Week #1)")
        = (.str "01/Jan/24", .str "07/Jan/24", .str "1")
    ∧ (∀ s : String, extractDate s.data = none
        → splitCell (.str s) = (.na, .na, .na))
    ∧ splitCell .na = (.na, .na, .na)
    ∧ (∀ n : Nat, splitCell (.num n) = (.na, .na, .na))
    ∧ (∀ df out : DF, split_date_col df = some out
        → "Date/Period" ∉ out.cols) := by
  refine ⟨rfl, ?_, rfl, fun n => rfl, ?_⟩
  · intro s hs
    simp [splitCell, hs]
  · intro df out hout
    cases hidx : df.colIdx "Date/Period" with
    | none =>
      simp only [split_date_col, hidx] at hout
      exact absurd hout (by simp)
    | some i =>
      simp only [split_date_col, hidx] at hout
      split at hout
      · have hcols : out.cols
            = "Period Start" :: "Period End" :: "Week Number"
              :: maskList (df.cols.map (fun c => c != "Date/Period")) df.cols := by
          cases hout.symm
          rfl
        rw [hcols, maskList_map_self]
        intro hmem
        simp only [List.mem_cons] at hmem
        rcases hmem with h1 | h1 | h1 | hmem
        · exact absurd h1 (by decide)
        · exact absurd h1 (by decide)
        · exact absurd h1 (by decide)
        · exact absurd (List.mem_filter.mp hmem).2 (by simp)
      · exact absurd hout (by simp)

theorem split_date_col_spec_witness :
    splitCell (.str "nope") = (.na, .na, .na)
    ∧ "Date/Period" ∉
        (⟨["Period Start", "Period End", "Week Number", "Lead Time",
           "Cycle Time", "Blocked Time", "Time to Market", "Analysis Time"],
          1, [[Cell.na], [Cell.na], [Cell.na], [Cell.na], [Cell.na], [Cell.na],
              [Cell.na], [Cell.na]]⟩ : DF).cols := by
  constructor
  · exact split_date_col_spec.2.1 "nope" rfl
  · exact split_date_col_spec.2.2.2.2
      ⟨COLUMNS_TEMPLATE, 1,
       [[Cell.str "x"], [Cell.na], [Cell.na], [Cell.na], [Cell.na], [Cell.na]]⟩
      _ rfl

/-! ### Column reconciliation: C2 and C8 -/

/-- Counterexample to C2 as stated: two differently-cased variants of the
same template column both survive the mask, are renamed to the same canonical
label, and `reindex` then raises on the duplicated axis — no table with the
template columns is produced for this input. -/
theorem preprocess_duplicate_case_error :
    preprocess_columns ⟨["Lead Time", "lead time"], 1, [[Cell.na], [Cell.na]]⟩
        "f.xlsx"
      = .error "cannot reindex on an axis with duplicate labels" := by
  rfl

theorem nodupBool_iff (l : List String) : nodupBool l = true ↔ l.Nodup := by
  induction l with
  | nil => simp [nodupBool]
  | cons c l ih => simp [nodupBool, ih, List.nodup_cons]

/-- C2 (amended).  For every input table whose surviving columns canonicalize
to pairwise distinct labels, reconciliation produces a table whose columns
are exactly the six template columns in template order. -/
theorem preprocess_columns_template (df : DF) (fileName : String)
    (hnd : (canonKeptCols df).Nodup) :
    ∃ out logs, preprocess_columns df fileName = .ok (out, logs)
      ∧ out.cols = COLUMNS_TEMPLATE := by
  have hb : nodupBool (canonKeptCols df) = true := (nodupBool_iff _).mpr hnd
  simp only [canonKeptCols] at hb
  simp only [preprocess_columns]
  rw [hb]
  exact ⟨_, _, rfl, rfl⟩

theorem preprocess_columns_template_witness :
    ∃ out logs,
      preprocess_columns ⟨["⊞Lead Time", "CYCLE TIME", "Story", "Date/Period"],
          1, [[Cell.na], [Cell.str "4h"], [Cell.num 3], [Cell.na]]⟩ "f.xlsx"
        = .ok (out, logs) ∧ out.cols = COLUMNS_TEMPLATE :=
  preprocess_columns_template _ "f.xlsx" ((nodupBool_iff _).mp rfl)

theorem exists_len6 {α : Type*} (l : List α) (h : l.length = 6) :
    ∃ a b c d e f, l = [a, b, c, d, e, f] := by
  rcases l with _ | ⟨a, l⟩
  · simp only [List.length_nil] at h; omega
  rcases l with _ | ⟨b, l⟩
  · simp only [List.length_cons, List.length_nil] at h; omega
  rcases l with _ | ⟨c, l⟩
  · simp only [List.length_cons, List.length_nil] at h; omega
  rcases l with _ | ⟨d, l⟩
  · simp only [List.length_cons, List.length_nil] at h; omega
  rcases l with _ | ⟨e, l⟩
  · simp only [List.length_cons, List.length_nil] at h; omega
  rcases l with _ | ⟨f, l⟩
  · simp only [List.length_cons, List.length_nil] at h; omega
  rcases l with _ | ⟨g, l⟩
  · exact ⟨a, b, c, d, e, f, rfl⟩
  · simp only [List.length_cons] at h; omega

/-- C8.  Reconciling a table whose columns are already exactly the template
columns in canonical casing and order yields the same table unchanged, with
no diagnostics emitted. -/
theorem preprocess_columns_idempotent (df : DF) (fileName : String)
    (hc : df.cols = COLUMNS_TEMPLATE) (hw : df.WF) :
    preprocess_columns df fileName = .ok (df, []) := by
  obtain ⟨hlen, -⟩ := hw
  rcases df with ⟨cols, n, data⟩
  dsimp only at hc hlen
  subst hc
  have h6 : data.length = 6 := by
    simpa [COLUMNS_TEMPLATE] using hlen
  obtain ⟨a, b, c, d, e, f, rfl⟩ := exists_len6 data h6
  rfl

theorem preprocess_columns_idempotent_witness :
    preprocess_columns ⟨COLUMNS_TEMPLATE, 1,
        [[Cell.str "x"], [Cell.na], [Cell.num 2], [Cell.na], [Cell.na],
         [Cell.na]]⟩ "f.xlsx"
      = .ok (⟨COLUMNS_TEMPLATE, 1,
          [[Cell.str "x"], [Cell.na], [Cell.num 2], [Cell.na], [Cell.na],
           [Cell.na]]⟩, []) :=
  preprocess_columns_idempotent _ "f.xlsx" rfl ⟨rfl, by decide⟩

/-! ### Commutation and totality: C9 and C10 -/

/-- C9.  On a column-reconciled table, converting the five time columns and
splitting the date column commute: both orders produce the same table. -/
theorem convert_split_commute (df : DF) (hc : df.cols = COLUMNS_TEMPLATE)
    (hw : df.WF) :
    (convert_time_cols df time_columns).bind split_date_col
      = (split_date_col df).bind (fun d => convert_time_cols d time_columns) := by
  obtain ⟨hlen, -⟩ := hw
  rcases df with ⟨cols, n, data⟩
  dsimp only at hc hlen
  subst hc
  have h6 : data.length = 6 := by
    simpa [COLUMNS_TEMPLATE] using hlen
  obtain ⟨a, b, c, d, e, f, rfl⟩ := exists_len6 data h6
  have hsplit : ∀ t1 t2 t3 t4 t5 : List Cell,
      split_date_col ⟨COLUMNS_TEMPLATE, n, [a, t1, t2, t3, t4, t5]⟩
        = if a.any Cell.isStr then
            some ⟨["Period Start", "Period End", "Week Number", "Lead Time",
                   "Cycle Time", "Blocked Time", "Time to Market",
                   "Analysis Time"], n,
                  [(a.map splitCell).map (·.1), (a.map splitCell).map (·.2.1),
                   (a.map splitCell).map (·.2.2), t1, t2, t3, t4, t5]⟩
          else none :=
    fun _ _ _ _ _ => rfl
  trans split_date_col ⟨COLUMNS_TEMPLATE, n,
      [a, convertCol b, convertCol c, convertCol d, convertCol e, convertCol f]⟩
  · rfl
  rw [hsplit, hsplit]
  cases ha : a.any Cell.isStr <;> rfl

theorem convert_split_commute_witness :
    (convert_time_cols
        ⟨COLUMNS_TEMPLATE, 1,
         [[Cell.str "01/Jan/24 - 07/Jan/24 (Week #1)"], [Cell.str "1d"],
          [Cell.na], [Cell.num 3], [Cell.str "-"], [Cell.na]]⟩
        time_columns).bind split_date_col
      = (split_date_col
          ⟨COLUMNS_TEMPLATE, 1,
           [[Cell.str "01/Jan/24 - 07/Jan/24 (Week #1)"], [Cell.str "1d"],
            [Cell.na], [Cell.num 3], [Cell.str "-"], [Cell.na]]⟩).bind
          (fun d => convert_time_cols d time_columns) :=
  convert_split_commute _ rfl ⟨rfl, by decide⟩

theorem convert_time_cols_pres (names : List String) (df out : DF)
    (h : convert_time_cols df names = some out) :
    out.cols = df.cols ∧ out.nRows = df.nRows := by
  induction names generalizing df with
  | nil =>
    simp only [convert_time_cols, Option.some.injEq] at h
    rw [← h]
    exact ⟨rfl, rfl⟩
  | cons nm ns ih =>
    simp only [convert_time_cols] at h
    cases hidx : df.colIdx nm with
    | none => rw [hidx] at h; exact absurd h (by simp)
    | some i =>
      rw [hidx] at h
      exact ih ⟨df.cols, df.nRows, df.data.set i (convertCol (df.data.getD i []))⟩ h

theorem convert_time_cols_total (names : List String) (df : DF)
    (h : ∀ nm ∈ names, (df.colIdx nm).isSome = true) :
    ∃ out, convert_time_cols df names = some out ∧ out.cols = df.cols := by
  induction names generalizing df with
  | nil => exact ⟨df, rfl, rfl⟩
  | cons nm ns ih =>
    have h1 : (df.colIdx nm).isSome = true := h nm (List.mem_cons_self _ _)
    cases hidx : df.colIdx nm with
    | none => rw [hidx] at h1; exact absurd h1 (by simp)
    | some i =>
      have h2 : ∀ x ∈ ns,
          ((⟨df.cols, df.nRows,
             df.data.set i (convertCol (df.data.getD i []))⟩ : DF).colIdx x).isSome
            = true := by
        intro x hx
        exact h x (List.mem_cons_of_mem _ hx)
      obtain ⟨out, hout, hcols⟩ := ih _ h2
      refine ⟨out, ?_, hcols⟩
      simp only [convert_time_cols]
      rw [hidx]
      exact hout

theorem preprocess_ok_fields {df : DF} {fileName : String} {out : DF}
    {logs : List (String × String)}
    (h : preprocess_columns df fileName = .ok (out, logs)) :
    out.cols = COLUMNS_TEMPLATE ∧ out.nRows = df.nRows := by
  simp only [preprocess_columns] at h
  split at h
  · simp only [Except.ok.injEq, Prod.mk.injEq] at h
    rw [← h.1]
    exact ⟨rfl, rfl⟩
  · exact absurd h (by simp)

/-- Counterexample to C10 as stated: a file that passes reconciliation
without a `Date/Period` column gets that column `NaN`-filled by `reindex`
(dtype `float64`), conversion still succeeds, and then
`df["Date/Period"].str` raises `AttributeError` — the stage after
reconciliation is not total. -/
theorem split_allnan_date_error :
    split_date_col ⟨COLUMNS_TEMPLATE, 1,
        [[Cell.na], [Cell.na], [Cell.na], [Cell.na], [Cell.na], [Cell.na]]⟩
      = none
    ∧ preprocess_columns ⟨["Story"], 1, [[Cell.num 1]]⟩ "f.xlsx"
        = .ok (⟨COLUMNS_TEMPLATE, 1,
            [[Cell.na], [Cell.na], [Cell.na], [Cell.na], [Cell.na], [Cell.na]]⟩,
           [("Date/Period", "f.xlsx"), ("Lead Time", "f.xlsx"),
            ("Cycle Time", "f.xlsx"), ("Blocked Time", "f.xlsx"),
            ("Time to Market", "f.xlsx"), ("Analysis Time", "f.xlsx")])
    ∧ convert_time_cols ⟨COLUMNS_TEMPLATE, 1,
          [[Cell.na], [Cell.na], [Cell.na], [Cell.na], [Cell.na], [Cell.na]]⟩
        time_columns
      = some ⟨COLUMNS_TEMPLATE, 1,
          [[Cell.na], [Cell.na], [Cell.na], [Cell.na], [Cell.na], [Cell.na]]⟩ :=
  ⟨rfl, rfl, rfl⟩

/-- C10 (amended).  Every table accepted by reconciliation has exactly the
template columns, so the label lookups of the later stages never fail:
time-column conversion succeeds, `split_date_col` finds `Date/Period`, and —
provided that column holds at least one string value, so the `.str` accessor
is legal — the date split succeeds as well. -/
theorem pipeline_total_after_reconcile (df : DF) (fileName : String) (out : DF)
    (logs : List (String × String))
    (h : preprocess_columns df fileName = .ok (out, logs)) :
    out.cols = COLUMNS_TEMPLATE
    ∧ ∃ out2, convert_time_cols out time_columns = some out2
        ∧ out2.colIdx "Date/Period" = some 0
        ∧ (∀ dc, out2.getCol "Date/Period" = some dc
            → dc.any Cell.isStr = true
            → ∃ out3, split_date_col out2 = some out3) := by
  obtain ⟨hcols, -⟩ := preprocess_ok_fields h
  refine ⟨hcols, ?_⟩
  have hidxs : ∀ nm ∈ time_columns, (out.colIdx nm).isSome = true := by
    intro nm hnm
    unfold DF.colIdx
    rw [hcols]
    revert hnm
    revert nm
    decide
  obtain ⟨out2, h2, hc2⟩ := convert_time_cols_total time_columns out hidxs
  have hidx : out2.colIdx "Date/Period" = some 0 := by
    unfold DF.colIdx
    rw [hc2, hcols]
    rfl
  refine ⟨out2, h2, hidx, ?_⟩
  intro dc hdc hstr
  have hdc2 : out2.data.getD 0 [] = dc := by
    unfold DF.getCol at hdc
    rw [hidx] at hdc
    simpa using hdc
  simp only [split_date_col, hidx, hdc2, hstr, if_true]
  exact ⟨_, rfl⟩

theorem pipeline_total_after_reconcile_witness :
    (⟨COLUMNS_TEMPLATE, 1,
      [[Cell.str "x"], [Cell.na], [Cell.na], [Cell.na], [Cell.na], [Cell.na]]⟩
        : DF).cols = COLUMNS_TEMPLATE
    ∧ ∃ out2, convert_time_cols
          ⟨COLUMNS_TEMPLATE, 1,
           [[Cell.str "x"], [Cell.na], [Cell.na], [Cell.na], [Cell.na],
            [Cell.na]]⟩
          time_columns = some out2
        ∧ out2.colIdx "Date/Period" = some 0
        ∧ (∀ dc, out2.getCol "Date/Period" = some dc
            → dc.any Cell.isStr = true
            → ∃ out3, split_date_col out2 = some out3) :=
  pipeline_total_after_reconcile ⟨["Date/Period"], 1, [[Cell.str "x"]]⟩
    "f.xlsx" _ _ rfl

/-! ### Orchestration: C5, C6 and C7 -/

/-- C5 is refuted by the code.  `logging.basicConfig` opens the log file
before the loop (`FileHandler`, default `delay=False`), so a successful run
over a single spreadsheet that already has every template column — a run
emitting no missing-column diagnostic — still leaves a (here empty) log file
behind. -/
theorem log_file_created_without_diagnostics :
    (main [("dept", ⟨COLUMNS_TEMPLATE, 1,
        [[Cell.str "01/Jan/24 - 07/Jan/24 (Week #1)"], [Cell.str "1d"],
         [Cell.str "2h"], [Cell.na], [Cell.str "-"],
         [Cell.num 5]]⟩)]).diagnostics = []
    ∧ (main [("dept", ⟨COLUMNS_TEMPLATE, 1,
        [[Cell.str "01/Jan/24 - 07/Jan/24 (Week #1)"], [Cell.str "1d"],
         [Cell.str "2h"], [Cell.na], [Cell.str "-"],
         [Cell.num 5]]⟩)]).logFileCreated = true
    ∧ (main [("dept", ⟨COLUMNS_TEMPLATE, 1,
        [[Cell.str "01/Jan/24 - 07/Jan/24 (Week #1)"], [Cell.str "1d"],
         [Cell.str "2h"], [Cell.na], [Cell.str "-"],
         [Cell.num 5]]⟩)]).finalDF
      = .ok ⟨FINAL_COLUMNS, 1,
          [[Cell.str "dept"], [Cell.str "01/Jan/24"], [Cell.str "07/Jan/24"],
           [Cell.str "1"], [Cell.num 24], [Cell.num 2], [Cell.na], [Cell.na],
           [Cell.num 5]]⟩ :=
  ⟨rfl, rfl, rfl⟩

/-- Counterexample to C6 as stated: with no department tables at all,
`pd.concat([])` raises and no Final Output Table is produced. -/
theorem main_empty_error :
    (main []).finalDF = .error "No objects to concatenate" := rfl

theorem split_date_col_shape {df out : DF} (h : split_date_col df = some out)
    (hc : df.cols = COLUMNS_TEMPLATE) :
    out.cols = ["Period Start", "Period End", "Week Number", "Lead Time",
      "Cycle Time", "Blocked Time", "Time to Market", "Analysis Time"]
    ∧ out.nRows = df.nRows := by
  have hidx : df.colIdx "Date/Period" = some 0 := by
    unfold DF.colIdx
    rw [hc]
    rfl
  simp only [split_date_col, hidx] at h
  split at h
  · simp only [Option.some.injEq] at h
    rw [← h]
    refine ⟨?_, rfl⟩
    show "Period Start" :: "Period End" :: "Week Number"
        :: maskList (df.cols.map (fun c => c != "Date/Period")) df.cols = _
    rw [hc]
    rfl
  · exact absurd h (by simp)

/-- What orchestration guarantees for each transformed department table. -/
def deptProp (p : String × DF) (d : DF) : Prop :=
  d.cols = FINAL_COLUMNS ∧ d.nRows = p.2.nRows
  ∧ d.getCol "Department Name" = some (List.replicate p.2.nRows (Cell.str p.1))

theorem transformFile_ok {stem : String} {df d : DF}
    {logs : List (String × String)}
    (h : transformFile stem df = .ok (d, logs)) : deptProp (stem, df) d := by
  unfold transformFile at h
  split at h
  · exact absurd h (by simp)
  · rename_i df1 logs1 hp
    split at h
    · exact absurd h (by simp)
    · rename_i df2 hcv
      split at h
      · exact absurd h (by simp)
      · rename_i df3 hsp
        simp only [Except.ok.injEq, Prod.mk.injEq] at h
        obtain ⟨h1, -⟩ := h
        obtain ⟨hc1, hn1⟩ := preprocess_ok_fields hp
        obtain ⟨hc2, hn2⟩ := convert_time_cols_pres _ _ _ hcv
        obtain ⟨hc3, hn3⟩ := split_date_col_shape hsp (hc2.trans hc1)
        rw [← h1]
        refine ⟨?_, ?_, ?_⟩
        · show "Department Name" :: df3.cols = FINAL_COLUMNS
          rw [hc3]
          rfl
        · show df3.nRows = df.nRows
          rw [hn3, hn2, hn1]
        · show some (List.replicate df3.nRows (Cell.str stem))
              = some (List.replicate df.nRows (Cell.str stem))
          rw [hn3, hn2, hn1]

theorem runFiles_ok {inputs : List (String × DF)} {dfs : List DF}
    {logs : List (String × String)} (h : runFiles inputs = .ok (dfs, logs)) :
    List.Forall₂ deptProp inputs dfs := by
  induction inputs generalizing dfs logs with
  | nil =>
    simp only [runFiles, Except.ok.injEq, Prod.mk.injEq] at h
    rw [← h.1]
    exact List.Forall₂.nil
  | cons p rest ih =>
    obtain ⟨n, df⟩ := p
    simp only [runFiles] at h
    split at h
    · exact absurd h (by simp)
    · rename_i d logs1 ht
      split at h
      · exact absurd h (by simp)
      · rename_i ds moreLogs hr
        simp only [Except.ok.injEq, Prod.mk.injEq] at h
        rw [← h.1]
        exact List.Forall₂.cons (transformFile_ok ht) (ih hr)

theorem forall₂_cols {inputs : List (String × DF)} {dfs : List DF}
    (h : List.Forall₂ deptProp inputs dfs) :
    ∀ d ∈ dfs, d.cols = FINAL_COLUMNS := by
  induction h with
  | nil => intro d hd; exact absurd hd (by simp)
  | cons h1 _ ih =>
    intro d hd
    rcases List.mem_cons.mp hd with rfl | hd
    · exact h1.1
    · exact ih d hd

theorem forall₂_nrows {inputs : List (String × DF)} {dfs : List DF}
    (h : List.Forall₂ deptProp inputs dfs) :
    dfs.map (·.nRows) = inputs.map (fun p => p.2.nRows) := by
  induction h with
  | nil => rfl
  | cons h1 _ ih =>
    simp only [List.map_cons]
    rw [h1.2.1, ih]

theorem forall₂_dept {inputs : List (String × DF)} {dfs : List DF}
    (h : List.Forall₂ deptProp inputs dfs) :
    dfs.map (fun df => match df.getCol "Department Name" with
      | some col => col
      | none => List.replicate df.nRows Cell.na)
      = inputs.map (fun p => List.replicate p.2.nRows (Cell.str p.1)) := by
  induction h with
  | nil => rfl
  | cons h1 _ ih =>
    simp only [List.map_cons]
    rw [ih]
    simp only [h1.2.2]

theorem filter_not_mem_final :
    FINAL_COLUMNS.filter (fun c => !(FINAL_COLUMNS.contains c)) = [] := by
  decide

theorem foldl_cols (ds : List DF)
    (hall : ∀ d ∈ ds, d.cols = FINAL_COLUMNS) :
    ds.foldl (fun acc df => acc ++ df.cols.filter (fun c => !(acc.contains c)))
      FINAL_COLUMNS = FINAL_COLUMNS := by
  induction ds with
  | nil => rfl
  | cons d ds ih =>
    simp only [List.foldl_cons]
    rw [hall d (List.mem_cons_self _ _), filter_not_mem_final, List.append_nil]
    exact ih (fun x hx => hall x (List.mem_cons_of_mem _ hx))

theorem concatDFs_shape {dfs : List DF} {out : DF} (h : concatDFs dfs = .ok out)
    (hall : ∀ d ∈ dfs, d.cols = FINAL_COLUMNS) :
    out.cols = FINAL_COLUMNS
    ∧ out.nRows = (dfs.map (·.nRows)).sum
    ∧ out.data = FINAL_COLUMNS.map (fun c =>
        (dfs.map (fun df => match df.getCol c with
          | some col => col
          | none => List.replicate df.nRows Cell.na)).flatten) := by
  cases dfs with
  | nil => exact absurd h (by simp [concatDFs])
  | cons d ds =>
    have hcols : (d :: ds).foldl
        (fun acc df => acc ++ df.cols.filter (fun c => !(acc.contains c))) []
        = FINAL_COLUMNS := by
      simp only [List.foldl_cons]
      have h1 : d.cols.filter (fun c => !(([] : List String).contains c))
          = d.cols :=
        List.filter_eq_self.mpr (fun a _ => rfl)
      rw [List.nil_append, h1, hall d (List.mem_cons_self _ _)]
      exact foldl_cols ds (fun x hx => hall x (List.mem_cons_of_mem _ hx))
    simp only [concatDFs] at h
    rw [hcols] at h
    simp only [Except.ok.injEq] at h
    rw [← h]
    exact ⟨rfl, rfl, rfl⟩

/-- C7.  Whenever the run produces a Final Output Table, its columns are
exactly, in order: Department Name, Period Start, Period End, Week Number,
Lead Time, Cycle Time, Blocked Time, Time to Market, Analysis Time. -/
theorem final_output_columns (inputs : List (String × DF)) (out : DF)
    (h : (main inputs).finalDF = .ok out) : out.cols = FINAL_COLUMNS := by
  unfold main at h
  split at h
  · exact absurd h (by simp)
  · rename_i dfs logs hr
    have h2 : concatDFs dfs = .ok out := h
    exact (concatDFs_shape h2 (forall₂_cols (runFiles_ok hr))).1

theorem final_output_columns_witness :
    (⟨FINAL_COLUMNS, 1,
      [[Cell.str "dept2"], [Cell.str "01/Jan/24"], [Cell.str "07/Jan/24"],
       [Cell.str "1"], [Cell.num 24], [Cell.num 2], [Cell.na], [Cell.na],
       [Cell.num 5]]⟩ : DF).cols = FINAL_COLUMNS :=
  final_output_columns
    [("dept2", ⟨COLUMNS_TEMPLATE, 1,
      [[Cell.str "01/Jan/24 - 07/Jan/24 (Week #1)"], [Cell.str "1d"],
       [Cell.str "2h"], [Cell.na], [Cell.str "-"], [Cell.num 5]]⟩)] _ rfl

/-- C6 (amended).  Whenever the run produces a Final Output Table (so the
file list is nonempty and every per-file transform succeeded), its row count
is the sum of the input tables' row counts, its Department Name column lists
each file's stem once per source row in file-discovery order, and every
output column is the concatenation, in file-discovery order, of the
corresponding per-file transformed columns with their row order intact. -/
theorem main_concat (inputs : List (String × DF)) (out : DF)
    (h : (main inputs).finalDF = .ok out) :
    out.nRows = (inputs.map (fun p => p.2.nRows)).sum
    ∧ out.getCol "Department Name"
        = some ((inputs.map
            (fun p => List.replicate p.2.nRows (Cell.str p.1))).flatten)
    ∧ ∃ dfs logs, runFiles inputs = .ok (dfs, logs)
        ∧ out.data = FINAL_COLUMNS.map (fun c =>
            (dfs.map (fun df => match df.getCol c with
              | some col => col
              | none => List.replicate df.nRows Cell.na)).flatten) := by
  unfold main at h
  split at h
  · exact absurd h (by simp)
  · rename_i dfs logs hr
    have h2 : concatDFs dfs = .ok out := h
    have hf := runFiles_ok hr
    obtain ⟨hcols, hn, hdata⟩ := concatDFs_shape h2 (forall₂_cols hf)
    refine ⟨?_, ?_, dfs, logs, hr, hdata⟩
    · rw [hn, forall₂_nrows hf]
    · have hidx : out.colIdx "Department Name" = some 0 := by
        unfold DF.colIdx
        rw [hcols]
        rfl
      have hgoal : out.getCol "Department Name"
          = some ((dfs.map (fun df => match df.getCol "Department Name" with
              | some col => col
              | none => List.replicate df.nRows Cell.na)).flatten) := by
        unfold DF.getCol
        rw [hidx, hdata]
        rfl
      rw [hgoal, forall₂_dept hf]

theorem main_concat_witness :
    (⟨FINAL_COLUMNS, 1,
      [[Cell.str "d"], [Cell.str "01/Jan/24"], [Cell.str "07/Jan/24"],
       [Cell.str "1"], [Cell.num 24], [Cell.num 2], [Cell.na], [Cell.na],
       [Cell.num 5]]⟩ : DF).nRows
      = ([("d", (⟨COLUMNS_TEMPLATE, 1,
            [[Cell.str "01/Jan/24 - 07/Jan/24 (Week #1)"], [Cell.str "1d"],
             [Cell.str "2h"], [Cell.na], [Cell.str "-"], [Cell.num 5]]⟩
            : DF))].map (fun p => p.2.nRows)).sum
    ∧ (⟨FINAL_COLUMNS, 1,
        [[Cell.str "d"], [Cell.str "01/Jan/24"], [Cell.str "07/Jan/24"],
         [Cell.str "1"], [Cell.num 24], [Cell.num 2], [Cell.na], [Cell.na],
         [Cell.num 5]]⟩ : DF).getCol "Department Name"
      = some (([("d", (⟨COLUMNS_TEMPLATE, 1,
            [[Cell.str "01/Jan/24 - 07/Jan/24 (Week #1)"], [Cell.str "1d"],
             [Cell.str "2h"], [Cell.na], [Cell.str "-"], [Cell.num 5]]⟩
            : DF))].map
          (fun p => List.replicate p.2.nRows (Cell.str p.1))).flatten) := by
  have h := main_concat
    [("d", ⟨COLUMNS_TEMPLATE, 1,
      [[Cell.str "01/Jan/24 - 07/Jan/24 (Week #1)"], [Cell.str "1d"],
       [Cell.str "2h"], [Cell.na], [Cell.str "-"], [Cell.num 5]]⟩)]
    ⟨FINAL_COLUMNS, 1,
     [[Cell.str "d"], [Cell.str "01/Jan/24"], [Cell.str "07/Jan/24"],
      [Cell.str "1"], [Cell.num 24], [Cell.num 2], [Cell.na], [Cell.na],
      [Cell.num 5]]⟩ rfl
  exact ⟨h.1, h.2.1⟩

end MainJira
